import Mathlib

/-!
Verification development for the plagiarism-analysis pipeline in
`src/main.py` (Back-end-Antiplagiat).  The Python source is shallowly
embedded:

* pure helpers (`split_text`, score rounding, the report banner colour
  choice) become Lean functions over `List Char` and `ℚ`;
* `calculate_similarity` becomes a function of an oracle that fixes the
  outcome of each HTTP attempt; it returns the produced value together
  with the number of back-off sleeps performed;
* the orchestrator `process_analysis` becomes an interpreter over an
  environment fixing the outcome of every external call (record store,
  blob store, web search, scraping, similarity scoring); the n-th
  fallible external operation of a run raises iff `Env.fail n` is true.

Machine floats are idealised as exact rationals; Python `round(x, 2)`
is modelled as round-half-to-even at two decimal places.
-/

/-- Python `round` to the nearest integer: round half to even. -/
def roundHalfEven (q : ℚ) : ℤ :=
  if q - ⌊q⌋ < 1/2 then ⌊q⌋
  else if 1/2 < q - ⌊q⌋ then ⌊q⌋ + 1
  else if ⌊q⌋ % 2 = 0 then ⌊q⌋ else ⌊q⌋ + 1

/-- Python `round(x, 2)`, idealised over exact rationals. -/
def pyRound2 (q : ℚ) : ℚ := (roundHalfEven (q * 100) : ℚ) / 100

/-- `score = round(similarity * 100, 2)` — src/main.py line 137. -/
def pyScore (sim : ℚ) : ℚ := pyRound2 (sim * 100)

/-- Python `str.split()` with no argument (whitespace tokenisation, as
used in `split_text`, src/main.py line 91): the maximal runs of
non-whitespace characters, in order. -/
def pyWordsL : List Char → List (List Char)
  | [] => []
  | c :: cs =>
    if c.isWhitespace then pyWordsL cs
    else (c :: cs.takeWhile (fun d => !d.isWhitespace)) ::
      pyWordsL (cs.dropWhile (fun d => !d.isWhitespace))
termination_by l => l.length
decreasing_by
  · simp only [List.length_cons]
    exact Nat.lt_succ_self _
  · simp only [List.length_cons]
    exact Nat.lt_succ_of_le (by
      induction cs with
      | nil => simp [List.dropWhile]
      | cons d ds ih =>
          by_cases h : (!d.isWhitespace) = true
          · simp only [List.dropWhile, h]
            exact Nat.le_succ_of_le ih
          · simp only [List.dropWhile, h]
            simp at h
            simp [h])

/-- The slicing loop of `split_text` (src/main.py line 92): consecutive
groups of `limit` words.  The program only ever calls this with
`limit = 500`; Python `range` would reject a step of 0, so the
`limit = 0` branch is unreachable in the program. -/
def groupWords : Nat → List α → List (List α)
  | _, [] => []
  | 0, x :: xs => [x :: xs]
  | l + 1, x :: xs =>
    (x :: xs).take (l + 1) :: groupWords (l + 1) ((x :: xs).drop (l + 1))
termination_by _ ws => ws.length
decreasing_by
  simp only [List.drop, List.length_cons, List.length_drop]
  omega

/-- Python `" ".join(words)` as used in `split_text` (src/main.py
line 92). -/
def joinWords : List (List Char) → List Char
  | [] => []
  | [w] => w
  | w :: ws => w ++ ' ' :: joinWords ws

/-- `split_text` (src/main.py lines 90–92): whitespace-tokenise, group
into `limit`-word slices, re-join each group with single spaces. -/
def split_text (text : List Char) (limit : Nat) : List (List Char) :=
  (groupWords limit (pyWordsL text)).map joinWords

/-- The blank test `not user_text.strip()` (src/main.py line 113): true
iff every character is whitespace (in particular for the empty text). -/
def pyBlank (t : List Char) : Bool := t.all (fun c => c.isWhitespace)

/-! Lemmas about whitespace tokenisation and the chunker. -/

theorem takeWhile_append_all (p : Char → Bool) (w cs : List Char)
    (h : ∀ c ∈ w, p c = true) :
    (w ++ cs).takeWhile p = w ++ cs.takeWhile p := by
  induction w with
  | nil => simp
  | cons a w ih =>
      have ha := h a (by simp)
      simp [List.takeWhile_cons, ha, ih (fun c hc => h c (by simp [hc]))]

theorem dropWhile_append_all (p : Char → Bool) (w cs : List Char)
    (h : ∀ c ∈ w, p c = true) :
    (w ++ cs).dropWhile p = cs.dropWhile p := by
  induction w with
  | nil => simp
  | cons a w ih =>
      simp only [List.cons_append, List.dropWhile_cons, h a (by simp)]
      exact ih (fun c hc => h c (by simp [hc]))

theorem pyWordsL_word_append (w cs : List Char) (hw : w ≠ [])
    (hnw : ∀ c ∈ w, c.isWhitespace = false) :
    pyWordsL (w ++ cs) =
      (w ++ cs.takeWhile (fun d => !d.isWhitespace)) ::
        pyWordsL (cs.dropWhile (fun d => !d.isWhitespace)) := by
  cases w with
  | nil => exact absurd rfl hw
  | cons a w =>
      rw [List.cons_append, pyWordsL]
      rw [if_neg (by simp [hnw a (by simp)])]
      rw [takeWhile_append_all _ w cs (fun c hc => by simp [hnw c (by simp [hc])]),
          dropWhile_append_all _ w cs (fun c hc => by simp [hnw c (by simp [hc])])]
      simp

theorem pyWordsL_single (w : List Char) (hw : w ≠ [])
    (hnw : ∀ c ∈ w, c.isWhitespace = false) :
    pyWordsL w = [w] := by
  have h := pyWordsL_word_append w [] hw hnw
  simpa [pyWordsL] using h

theorem pyWordsL_word_space (w rest : List Char) (hw : w ≠ [])
    (hnw : ∀ c ∈ w, c.isWhitespace = false) :
    pyWordsL (w ++ ' ' :: rest) = w :: pyWordsL rest := by
  rw [pyWordsL_word_append w (' ' :: rest) hw hnw]
  have h1 : (' ' :: rest).takeWhile (fun d => !d.isWhitespace) = [] := by
    simp [List.takeWhile_cons]
  have h2 : (' ' :: rest).dropWhile (fun d => !d.isWhitespace) = ' ' :: rest := by
    simp [List.dropWhile_cons]
  have h3 : pyWordsL (' ' :: rest) = pyWordsL rest := by
    rw [pyWordsL, if_pos (by decide)]
  rw [h1, h2, h3]
  simp

theorem pyWordsL_props (t : List Char) :
    ∀ w ∈ pyWordsL t, w ≠ [] ∧ ∀ c ∈ w, c.isWhitespace = false := by
  induction t using pyWordsL.induct with
  | case1 => simp [pyWordsL]
  | case2 c cs hc ih =>
      intro w hw
      rw [pyWordsL, if_pos hc] at hw
      exact ih w hw
  | case3 c cs hc ih =>
      intro w hw
      rw [pyWordsL, if_neg hc] at hw
      rcases List.mem_cons.mp hw with h | h
      · subst h
        refine ⟨by simp, ?_⟩
        intro d hd
        rcases List.mem_cons.mp hd with h | h
        · subst h
          simpa using hc
        · have := List.mem_takeWhile_imp h
          simpa using this
      · exact ih w h

theorem pyWordsL_joinWords : ∀ ws : List (List Char),
    (∀ w ∈ ws, w ≠ [] ∧ ∀ c ∈ w, c.isWhitespace = false) →
    pyWordsL (joinWords ws) = ws := by
  intro ws
  induction ws with
  | nil => intro _; simp [joinWords, pyWordsL]
  | cons w rest ih =>
      intro h
      cases rest with
      | nil =>
          have hp := h w (by simp)
          simp [joinWords, pyWordsL_single w hp.1 hp.2]
      | cons w₂ rest₂ =>
          have hp := h w (by simp)
          have hj : joinWords (w :: w₂ :: rest₂) = w ++ ' ' :: joinWords (w₂ :: rest₂) := rfl
          rw [hj, pyWordsL_word_space w _ hp.1 hp.2,
            ih (fun x hx => h x (by simp [hx]))]

theorem groupWords_flatten {α : Type} (l : Nat) (ws : List α) :
    (groupWords l ws).flatten = ws := by
  induction l, ws using groupWords.induct with
  | case1 x => simp [groupWords]
  | case2 x xs => simp [groupWords]
  | case3 l x xs ih =>
      rw [groupWords, List.flatten_cons, ih, List.take_append_drop]

theorem groupWords_le {α : Type} (l : Nat) (ws : List α) :
    0 < l → ∀ g ∈ groupWords l ws, g.length ≤ l := by
  induction l, ws using groupWords.induct with
  | case1 x => intro _ g hg; simp [groupWords] at hg
  | case2 x xs => intro h; exact absurd h (by simp)
  | case3 l x xs ih =>
      intro _ g hg
      rw [groupWords] at hg
      rcases List.mem_cons.mp hg with h | h
      · subst h
        exact List.length_take_le _ _
      · exact ih (Nat.succ_pos l) g h

theorem groupWords_ne_nil {α : Type} (l : Nat) (x : α) (xs : List α) :
    groupWords l (x :: xs) ≠ [] := by
  cases l with
  | zero => simp [groupWords]
  | succ m => rw [groupWords]; simp

theorem groupWords_dropLast {α : Type} (l : Nat) (ws : List α) :
    ∀ g ∈ (groupWords l ws).dropLast, g.length = l := by
  induction l, ws using groupWords.induct with
  | case1 x => simp [groupWords]
  | case2 x xs => simp [groupWords]
  | case3 l x xs ih =>
      intro g hg
      rw [groupWords] at hg
      cases hd : (x :: xs).drop (l + 1) with
      | nil =>
          rw [hd] at hg
          simp [groupWords] at hg
      | cons y ys =>
          rw [hd, List.dropLast_cons_of_ne_nil (groupWords_ne_nil _ _ _)] at hg
          rcases List.mem_cons.mp hg with h | h
          · subst h
            have hlen : l + 1 ≤ (x :: xs).length := by
              by_contra hlt
              push_neg at hlt
              have : (x :: xs).drop (l + 1) = [] :=
                List.drop_eq_nil_of_le (by omega)
              rw [hd] at this
              exact List.cons_ne_nil _ _ this
            simp only [List.length_cons] at hlen
            simp [List.length_take]
            omega
          · rw [← hd] at h
            exact ih g h

theorem split_text_groups (T : List Char) (L : Nat) :
    ∀ g ∈ groupWords L (pyWordsL T), pyWordsL (joinWords g) = g := by
  intro g hg
  apply pyWordsL_joinWords
  intro w hw
  apply pyWordsL_props T
  rw [← groupWords_flatten L (pyWordsL T)]
  exact List.mem_flatten.mpr ⟨g, hg, hw⟩

/-- C6: for every text `T` and positive limit `L`, the chunks produced
by `split_text` re-tokenise to word lists whose concatenation is
exactly the word sequence of `T`, in order; no chunk has more than `L`
words; and every chunk except possibly the last has exactly `L`
words (so at most one chunk — the last — is shorter than `L`). -/
theorem split_text_chunk_words (T : List Char) (L : Nat) (hL : 0 < L) :
    ((split_text T L).map pyWordsL).flatten = pyWordsL T
    ∧ (∀ chunk ∈ split_text T L, (pyWordsL chunk).length ≤ L)
    ∧ (∀ chunk ∈ (split_text T L).dropLast, (pyWordsL chunk).length = L) := by
  have hre := split_text_groups T L
  refine ⟨?_, ?_, ?_⟩
  · unfold split_text
    rw [List.map_map]
    have : (groupWords L (pyWordsL T)).map (pyWordsL ∘ joinWords)
        = (groupWords L (pyWordsL T)).map id :=
      List.map_congr_left (fun g hg => hre g hg)
    rw [this, List.map_id, groupWords_flatten]
  · intro chunk hchunk
    rcases List.mem_map.mp hchunk with ⟨g, hg, hj⟩
    rw [← hj, hre g hg]
    exact groupWords_le L (pyWordsL T) hL g hg
  · intro chunk hchunk
    unfold split_text at hchunk
    rw [← List.map_dropLast] at hchunk
    rcases List.mem_map.mp hchunk with ⟨g, hg, hj⟩
    rw [← hj, hre g (List.dropLast_subset _ hg)]
    exact groupWords_dropLast L (pyWordsL T) g hg

/-- Closed instance of `split_text_chunk_words` at a concrete text and
limit. -/
theorem split_text_chunk_words_witness :
    0 < 2 ∧
      ((((split_text ("alpha beta gamma".toList) 2).map pyWordsL).flatten
          = pyWordsL ("alpha beta gamma".toList))
        ∧ (∀ chunk ∈ split_text ("alpha beta gamma".toList) 2,
            (pyWordsL chunk).length ≤ 2)
        ∧ (∀ chunk ∈ (split_text ("alpha beta gamma".toList) 2).dropLast,
            (pyWordsL chunk).length = 2)) :=
  ⟨by decide, split_text_chunk_words ("alpha beta gamma".toList) 2 (by decide)⟩

theorem pyWordsL_ne_nil_of_not_blank (t : List Char) (h : pyBlank t = false) :
    pyWordsL t ≠ [] := by
  induction t using pyWordsL.induct with
  | case1 => simp [pyBlank] at h
  | case2 c cs hc ih =>
      rw [pyWordsL, if_pos hc]
      apply ih
      simpa [pyBlank, hc] using h
  | case3 c cs hc ih =>
      rw [pyWordsL, if_neg hc]
      exact List.cons_ne_nil _ _

/-- C10: the division by `total_chunks` in `process_analysis`
(src/main.py line 153) is never a division by zero: any text that
passes the blank test on line 113 (`pyBlank t = false`) has a
non-empty word list, hence `split_text(text, 500)` produces at least
one chunk, so `total_chunks ≥ 1` whenever aggregation is reached. -/
theorem total_chunks_pos (t : List Char) (h : pyBlank t = false) :
    pyWordsL t ≠ [] ∧ 0 < (split_text t 500).length := by
  have hw := pyWordsL_ne_nil_of_not_blank t h
  refine ⟨hw, ?_⟩
  unfold split_text
  rw [List.length_map]
  cases hws : pyWordsL t with
  | nil => exact absurd hws hw
  | cons w ws =>
      exact List.length_pos.mpr (groupWords_ne_nil 500 w ws)

/-- Closed instance of `total_chunks_pos` at a concrete text. -/
theorem total_chunks_pos_witness :
    pyBlank ("a".toList) = false ∧
      (pyWordsL ("a".toList) ≠ [] ∧ 0 < (split_text ("a".toList) 500).length) :=
  ⟨by decide, total_chunks_pos ("a".toList) (by decide)⟩

/-! Model of `calculate_similarity` (src/main.py lines 53–65). -/

/-- Result of reading the body of an HTTP response inside
`calculate_similarity`: `raises` when `response.json()` (or the
`float(result[0])` conversion) raises; `nonListVal` when the parsed
payload is not a non-empty list, so the conditional expression on
line 60 yields 0; `listVal x` when the payload is a non-empty list
whose first element converts to the number `x`. -/
inductive SimBody where
  | raises : SimBody
  | nonListVal : SimBody
  | listVal : ℚ → SimBody
deriving DecidableEq

/-- Outcome of one `requests.post` attempt in `calculate_similarity`:
`postExn` when the call itself raises (timeout or connection failure),
otherwise a response carrying a status code and a body. -/
inductive SimOutcome where
  | postExn : SimOutcome
  | resp : Nat → SimBody → SimOutcome
deriving DecidableEq

/-- `calculate_similarity` (src/main.py lines 53–65) as a function of
the oracle `attempt` giving the outcome of the n-th HTTP attempt.  It
returns the value produced together with the number of `time.sleep(5)`
back-off sleeps performed.  The bare `except:` on line 61 catches every
exception raised inside the `try` block — both a raising
`requests.post` and a raising `response.json()` / `float(result[0])` —
and in either case sleeps and retries while `retries > 0`, with budget
`retries - 1`.  A response with a non-200 status returns 0 at once
(line 58); a parsed payload that is not a non-empty list returns 0 at
once (line 60).  The Python guard `if retries > 0` with decrement
`retries - 1` is rendered as the zero/successor split on `retries`,
which duplicates the (retry-independent) response handling across the
two cases. -/
def calculate_similarity (attempt : Nat → SimOutcome) :
    Nat → Nat → ℚ × Nat
  | i, 0 =>
    match attempt i with
    | .postExn => (0, 0)
    | .resp status body =>
        if status ≠ 200 then (0, 0)
        else
          match body with
          | .raises => (0, 0)
          | .nonListVal => (0, 0)
          | .listVal x => (x, 0)
  | i, r + 1 =>
    match attempt i with
    | .postExn =>
        let p := calculate_similarity attempt (i + 1) r
        (p.1, p.2 + 1)
    | .resp status body =>
        if status ≠ 200 then (0, 0)
        else
          match body with
          | .raises =>
              let p := calculate_similarity attempt (i + 1) r
              (p.1, p.2 + 1)
          | .nonListVal => (0, 0)
          | .listVal x => (x, 0)

theorem calcSim_exn_step (attempt : Nat → SimOutcome) (i r : Nat)
    (h : attempt i = .postExn ∨ attempt i = .resp 200 .raises) :
    calculate_similarity attempt i (r + 1) =
      ((calculate_similarity attempt (i + 1) r).1,
        (calculate_similarity attempt (i + 1) r).2 + 1) := by
  rcases h with h | h
  · rw [calculate_similarity, h]
  · rw [calculate_similarity, h]
    simp

theorem calcSim_exn_exhausted (attempt : Nat → SimOutcome) (i : Nat)
    (h : attempt i = .postExn ∨ attempt i = .resp 200 .raises) :
    calculate_similarity attempt i 0 = (0, 0) := by
  rcases h with h | h
  · rw [calculate_similarity, h]
  · rw [calculate_similarity, h]
    simp

theorem calcSim_badstatus (attempt : Nat → SimOutcome) (i r s : Nat)
    (b : SimBody) (h : attempt i = .resp s b) (hs : s ≠ 200) :
    calculate_similarity attempt i r = (0, 0) := by
  cases r
  · rw [calculate_similarity, h]
    simp [hs]
  · rw [calculate_similarity, h]
    simp [hs]

theorem calcSim_nonlist (attempt : Nat → SimOutcome) (i r : Nat)
    (h : attempt i = .resp 200 .nonListVal) :
    calculate_similarity attempt i r = (0, 0) := by
  cases r
  · rw [calculate_similarity, h]
    simp
  · rw [calculate_similarity, h]
    simp

theorem calcSim_val (attempt : Nat → SimOutcome) (i r : Nat) (v : ℚ)
    (h : attempt i = .resp 200 (.listVal v)) :
    calculate_similarity attempt i r = (v, 0) := by
  cases r
  · rw [calculate_similarity, h]
    simp
  · rw [calculate_similarity, h]
    simp

/-- An attempt oracle whose first attempt yields a 200 response with a
malformed (non-JSON-decodable) payload and whose later attempts yield a
valid response with score 1/2. -/
def simAttemptsBadJson : Nat → SimOutcome
  | 0 => .resp 200 .raises
  | _ => .resp 200 (.listVal (1/2))

/-- C3 counterexample: the claim says a malformed payload returns 0
immediately, without retrying or sleeping — i.e. the run below should
return (0, 0).  In the code, a payload that makes `response.json()`
raise is caught by the bare `except:` and retried like a timeout: with
budget 2, a malformed-payload 200 response followed by a valid
response with score 1/2 returns (1/2, 1) — the valid response's score
after one back-off sleep, not 0 and not sleep-free. -/
theorem calculate_similarity_malformed_retries :
    calculate_similarity simAttemptsBadJson 0 2 = (1/2, 1) ∧
      (1/2, (1 : Nat)) ≠ ((0 : ℚ), (0 : Nat)) := by
  constructor
  · have h1 := calcSim_exn_step simAttemptsBadJson 0 1 (Or.inr rfl)
    norm_num at h1
    rw [h1, calcSim_val simAttemptsBadJson 1 1 (1/2) rfl]
  · simp

/-- C3 amended: the scorer retries — sleeping exactly once and strictly
decrementing the budget — on any exception raised inside the `try`
block, i.e. on a timeout/connection failure of the post OR on a body
whose JSON decoding / float conversion raises; it returns 0
immediately, with no sleep and no retry, on a well-formed non-success
response, on a parsed payload that is not a non-empty list, and on an
exception with exhausted budget; with budget 2, two consecutive
timeouts followed by a valid response return that response's score
with exactly two back-off sleeps. -/
theorem calculate_similarity_retry_policy (attempt : Nat → SimOutcome)
    (i r : Nat) (v : ℚ) (s : Nat) (b : SimBody) :
    (attempt i = .postExn → attempt (i + 1) = .postExn →
      attempt (i + 2) = .resp 200 (.listVal v) →
      calculate_similarity attempt i 2 = (v, 2))
    ∧ (attempt i = .resp s b → s ≠ 200 →
        calculate_similarity attempt i r = (0, 0))
    ∧ (attempt i = .resp 200 .nonListVal →
        calculate_similarity attempt i r = (0, 0))
    ∧ ((attempt i = .postExn ∨ attempt i = .resp 200 .raises) →
        calculate_similarity attempt i (r + 1) =
          ((calculate_similarity attempt (i + 1) r).1,
            (calculate_similarity attempt (i + 1) r).2 + 1))
    ∧ ((attempt i = .postExn ∨ attempt i = .resp 200 .raises) →
        calculate_similarity attempt i 0 = (0, 0)) := by
  refine ⟨?_, fun h hs => calcSim_badstatus attempt i r s b h hs,
    fun h => calcSim_nonlist attempt i r h,
    fun h => calcSim_exn_step attempt i r h,
    fun h => calcSim_exn_exhausted attempt i h⟩
  intro h0 h1 h2
  have e1 := calcSim_exn_step attempt i 1 (Or.inl h0)
  norm_num at e1
  have e2 := calcSim_exn_step attempt (i + 1) 0 (Or.inl h1)
  norm_num at e2
  have e3 : calculate_similarity attempt (i + 2) 0 = (v, 0) := by
    apply calcSim_val attempt (i + 2) 0 v
    exact h2
  rw [e1, e2]
  have : i + 1 + 1 = i + 2 := by omega
  rw [this, e3]

/-- Closed instance of `calculate_similarity_retry_policy`: an oracle
with two timeouts then a valid response with score 3/4; with budget 2
the result is (3/4, 2) — the valid score with exactly two sleeps. -/
theorem calculate_similarity_retry_policy_witness :
    calculate_similarity
        (fun n => if n < 2 then .postExn else .resp 200 (.listVal (3/4)))
        0 2 = (3/4, 2) :=
  (calculate_similarity_retry_policy
      (fun n => if n < 2 then .postExn else .resp 200 (.listVal (3/4)))
      0 0 (3/4) 0 .raises).1 rfl rfl rfl

/-! Report banner colour (src/main.py line 223) and score
aggregation (src/main.py line 153). -/

/-- The banner colour expression of `generate_styled_report`
(src/main.py line 223):
`(46,204,113) if score < 15 else (241,194,50) if score < 30 else
(231,76,60)` — green below 15, amber on [15, 30), red from 30 up. -/
def report_banner_color (score : ℚ) : Nat × Nat × Nat :=
  if score < 15 then (46, 204, 113)
  else if score < 30 then (241, 194, 50)
  else (231, 76, 60)

/-- C8 counterexample: the claim places every score from 15 to 30 in
the amber/medium tier and only scores above 30 in the red/high tier;
the code uses `score < 30` for amber, so the boundary score 30 gets
the red banner (231,76,60), not the amber one (241,194,50). -/
theorem report_banner_color_at_30 :
    report_banner_color 30 = (231, 76, 60) ∧
      ((231, 76, 60) : Nat × Nat × Nat) ≠ (241, 194, 50) := by
  constructor
  · simp only [report_banner_color]
    rw [if_neg (by norm_num), if_neg (by norm_num)]
  · decide

/-- C8 amended: three-tier banner selection with half-open bands —
scores below 15 get the green/low banner, scores in [15, 30) the
amber/medium banner, and scores of 30 and above the red/high banner;
in particular 10 is low, 20 is mid and 35 is high. -/
theorem report_banner_color_tiers (s : ℚ) :
    (s < 15 → report_banner_color s = (46, 204, 113))
    ∧ (15 ≤ s → s < 30 → report_banner_color s = (241, 194, 50))
    ∧ (30 ≤ s → report_banner_color s = (231, 76, 60)) := by
  refine ⟨?_, ?_, ?_⟩
  · intro h
    simp only [report_banner_color]
    rw [if_pos h]
  · intro h1 h2
    simp only [report_banner_color]
    rw [if_neg (not_lt.mpr h1), if_pos h2]
  · intro h
    simp only [report_banner_color]
    rw [if_neg (not_lt.mpr (le_trans (by norm_num) h)),
      if_neg (not_lt.mpr h)]

/-- Closed instance of `report_banner_color_tiers` at the scores 10,
20 and 35 named by the claim. -/
theorem report_banner_color_tiers_witness :
    report_banner_color 10 = (46, 204, 113)
    ∧ report_banner_color 20 = (241, 194, 50)
    ∧ report_banner_color 35 = (231, 76, 60) :=
  ⟨(report_banner_color_tiers 10).1 (by norm_num),
   (report_banner_color_tiers 20).2.1 (by norm_num) (by norm_num),
   (report_banner_color_tiers 35).2.2 (by norm_num)⟩

theorem roundHalfEven_dist (q : ℚ) : |(roundHalfEven q : ℚ) - q| ≤ 1/2 := by
  have h0 : (⌊q⌋ : ℚ) ≤ q := Int.floor_le q
  have h1 : q < ⌊q⌋ + 1 := Int.lt_floor_add_one q
  by_cases hlt : q - ⌊q⌋ < 1/2
  · rw [roundHalfEven, if_pos hlt, abs_le]
    constructor
    · linarith
    · linarith
  · by_cases hgt : 1/2 < q - ⌊q⌋
    · rw [roundHalfEven, if_neg hlt, if_pos hgt]
      push_cast
      rw [abs_le]
      constructor
      · linarith
      · linarith
    · have heq : q - ⌊q⌋ = 1/2 := le_antisymm (not_lt.mp hgt) (not_lt.mp hlt)
      by_cases hev : ⌊q⌋ % 2 = 0
      · rw [roundHalfEven, if_neg hlt, if_neg hgt, if_pos hev, abs_le]
        constructor
        · linarith
        · linarith
      · rw [roundHalfEven, if_neg hlt, if_neg hgt, if_neg hev]
        push_cast
        rw [abs_le]
        constructor
        · linarith
        · linarith

theorem roundHalfEven_intCast (k : ℤ) : roundHalfEven (k : ℚ) = k := by
  simp only [roundHalfEven, Int.floor_intCast]
  rw [if_pos (by norm_num)]

/-- The aggregation on src/main.py line 153:
`final_global_score = round(sum(all_chunk_scores) / total_chunks, 2)
if all_chunk_scores else 0` (Python truthiness of a list is
non-emptiness). -/
def final_global_score (all_chunk_scores : List ℚ) (total_chunks : Nat) : ℚ :=
  if all_chunk_scores = [] then 0
  else pyRound2 (all_chunk_scores.sum / (total_chunks : ℚ))

/-- C1 counterexample: for per-chunk maximum scores [0, 0, 1] (three
chunks; a chunk maximum of 1 is realizable, e.g. similarity 0.01) the
code stores `round(1/3, 2) = 0.33`, which is not the arithmetic mean
1/3 — the stored aggregate equals the mean only up to two-decimal
rounding. -/
theorem final_global_score_not_mean :
    final_global_score [0, 0, 1] 3 ≠ ([(0 : ℚ), 0, 1].sum) / 3 := by
  have hs : ([(0 : ℚ), 0, 1].sum) = 1 := by norm_num
  have h1 : final_global_score [0, 0, 1] 3 = pyRound2 (1 / 3) := by
    simp only [final_global_score]
    rw [if_neg (by simp), hs]
    norm_num
  have h2 : pyRound2 (1 / 3) = 33 / 100 := by
    have hfloor : ⌊(1 : ℚ) / 3 * 100⌋ = (33 : ℤ) :=
      Int.floor_eq_iff.mpr (by norm_num)
    simp only [pyRound2, roundHalfEven, hfloor]
    rw [if_pos (by norm_num)]
    norm_num
  rw [h1, h2, hs]
  norm_num

/-- C1 amended: the final global score is the arithmetic mean of the
per-chunk maximum scores rounded half-to-even to two decimal places —
within 1/200 of the exact mean, and exactly equal to the mean whenever
the mean is expressible with two decimals (in particular the example
[0, 40, 20] → 20.0 is exact, see the witness). -/
theorem final_global_score_rounded_mean (s : List ℚ) (h : s ≠ []) :
    |final_global_score s s.length - s.sum / (s.length : ℚ)| ≤ 1 / 200
    ∧ (∀ k : ℤ, s.sum / (s.length : ℚ) * 100 = (k : ℚ) →
        final_global_score s s.length = s.sum / (s.length : ℚ)) := by
  have hfs : final_global_score s s.length
      = pyRound2 (s.sum / (s.length : ℚ)) := by
    simp only [final_global_score, if_neg h]
  constructor
  · rw [hfs]
    have hd := roundHalfEven_dist (s.sum / (s.length : ℚ) * 100)
    simp only [pyRound2]
    have hsplit : (roundHalfEven (s.sum / (s.length : ℚ) * 100) : ℚ) / 100
          - s.sum / (s.length : ℚ)
        = ((roundHalfEven (s.sum / (s.length : ℚ) * 100) : ℚ)
            - s.sum / (s.length : ℚ) * 100) / 100 := by
      ring
    rw [hsplit, abs_div]
    have h100 : |(100 : ℚ)| = 100 := by norm_num
    rw [h100]
    have := (div_le_div_iff_of_pos_right (show (0 : ℚ) < 100 by norm_num)).mpr hd
    linarith
  · intro k hk
    simp only [hfs, pyRound2]
    rw [hk, roundHalfEven_intCast, ← hk]
    ring

/-- Closed instance of `final_global_score_rounded_mean`: the claim's
example — chunk maxima [0, 40, 20] aggregate to exactly 20. -/
theorem final_global_score_rounded_mean_witness :
    ([(0 : ℚ), 40, 20] ≠ []) ∧ final_global_score [0, 40, 20] 3 = 20 := by
  refine ⟨by simp, ?_⟩
  have h := (final_global_score_rounded_mean [0, 40, 20] (by simp)).2
    2000 (by norm_num)
  norm_num at h
  exact h

/-! Interpreter for `process_analysis` (src/main.py lines 106–207). -/

/-- One `{link, title}` entry of the search provider's organic results
(src/main.py lines 129–144); `title` is an `Option` because the code
reads it with `source.get('title', 'Source Web')`. -/
structure WebSource where
  link : String
  title : Option String
deriving DecidableEq

/-- A row of the `analysis_results` table as inserted on src/main.py
lines 141–146.  The `analysis_id` column (the run's own id) is omitted:
the model tracks the rows of a single run. -/
structure ResultRow where
  url : String
  title : String
  score : ℚ
deriving DecidableEq

/-- An entry of the in-run `detected_sources` list (src/main.py
line 149) — the reported source list handed to the PDF report.  The
code stores only `url` and `score` in these entries. -/
structure Detected where
  url : String
  score : ℚ
deriving DecidableEq

/-- A notification row (src/main.py lines 180–185 and 200–205).  The
`message` text and the constant `is_read = False` flag are elided; a
row is identified by recipient and title. -/
structure NoteRow where
  userId : String
  title : String
deriving DecidableEq

/-- The mutable fields of this run's row in the `analyses` table. -/
structure AnalysisRecord where
  status : String
  progress : Nat
  score : ℚ
  reportPath : Option String
deriving DecidableEq

/-- Observable effects of a run: the analyses row (with exactly the
updates that succeeded applied), the `analysis_results` and
`notifications` rows successfully inserted, the notification inserts
attempted (successful or not), the search queries issued, the local
files currently on disk, and the blob uploads performed. -/
structure DbState where
  record : AnalysisRecord
  results : List ResultRow
  notes : List NoteRow
  noteAttempts : List NoteRow
  searchQueries : List (List Char)
  localFiles : List String
  uploads : List String
deriving DecidableEq

/-- Interpreter state: the number of fallible external operations
performed so far (the index into `Env.fail`) plus the observable
effects. -/
structure St where
  ctr : Nat
  db : DbState
deriving DecidableEq

/-- Environment fixing every external interaction of one run.  `text`
is the text extracted from the downloaded blob (`extract_text` swallows
its own errors and returns a, possibly empty, string); `search q` the
organic results for query `q` (`search_google` returns `[]` on any
failure); `scrape u` the text scraped from url `u` (`scrape_website`
returns `""` on any failure); `sim c w` the value returned by
`calculate_similarity(c, w)` (which never raises); `fileName` and
`userId` the columns read back from the analyses row on line 158;
`initRecord` the analyses row as created before the run; `fail n`
whether the n-th fallible external operation of the run raises. -/
structure Env where
  text : List Char
  search : List Char → List WebSource
  scrape : String → List Char
  sim : List Char → List Char → ℚ
  fileName : String
  userId : String
  initRecord : AnalysisRecord
  fail : Nat → Bool

/-- Consume one fallible-operation slot: whether it raises, and the
state with the operation counter advanced. -/
def opFails (env : Env) (st : St) : Bool × St :=
  (env.fail st.ctr, ⟨st.ctr + 1, st.db⟩)

/-- A `supabase.table("analyses").update({"status": .., "progress": ..})`
payload applied to the run's row. -/
def setStatusProgress (st : St) (s : String) (p : Nat) : St :=
  ⟨st.ctr,
    { st.db with record := { st.db.record with status := s, progress := p } }⟩

/-- The dedup step of src/main.py lines 148–149: append `{url, score}`
to `detected_sources` unless the url is already present. -/
def dedupStep (det : List Detected) (e : Detected) : List Detected :=
  if det.any (fun d => d.url == e.url) then det else det ++ [e]

/-- Result of the candidate loop for one chunk: the state, the chunk's
maximum score and the detected-sources list after the loop — or the
state at the point where an insert raised. -/
inductive SRes where
  | ok : St → ℚ → List Detected → SRes
  | fail : St → SRes
deriving DecidableEq

def SRes.stOf : SRes → St
  | .ok st _ _ => st
  | .fail st => st

/-- The state after the `analysis_results` insert of src/main.py
lines 141–146 succeeded for candidate `src`: the inserted row carries
the url, the title (defaulted to "Source Web") and the score. -/
def insertRow (env : Env) (chunk : List Char) (src : WebSource)
    (st : St) : St :=
  ⟨st.ctr, { st.db with results := st.db.results ++
    [⟨src.link, src.title.getD "Source Web",
      pyScore (env.sim chunk (env.scrape src.link))⟩] }⟩

/-- The candidate loop of src/main.py lines 132–149 for one chunk:
candidates whose scraped text is empty are skipped; otherwise the
candidate is scored, the chunk maximum is raised on a strictly-greater
score (line 138), and when the score strictly exceeds 15 an
`analysis_results` row is inserted (a fallible operation) and the
candidate is dedup-appended to `detected_sources`. -/
def runSources (env : Env) (chunk : List Char) :
    List WebSource → St → ℚ → List Detected → SRes
  | [], st, maxS, det => .ok st maxS det
  | src :: rest, st, maxS, det =>
    let webText := env.scrape src.link
    if webText = [] then runSources env chunk rest st maxS det
    else
      let score := pyScore (env.sim chunk webText)
      let maxS1 := if maxS < score then score else maxS
      if 15 < score then
        let f := opFails env st
        if f.1 then .fail f.2
        else
          runSources env chunk rest (insertRow env chunk src f.2)
            maxS1 (dedupStep det ⟨src.link, score⟩)
      else runSources env chunk rest st maxS1 det

/-- Result of the chunk loop: the state, the list of per-chunk maximum
scores and the detected-sources list — or the state at the point where
an operation raised. -/
inductive CRes where
  | ok : St → List ℚ → List Detected → CRes
  | fail : St → CRes
deriving DecidableEq

def CRes.stOf : CRes → St
  | .ok st _ _ => st
  | .fail st => st

/-- The status string `f"Analyse bloc {index+1}/{total_chunks}..."`
of src/main.py line 126 (the braced pieces written by concatenation). -/
def blocStatus (i total : Nat) : String :=
  "Analyse bloc " ++ toString i ++ "/" ++ toString total ++ "..."

/-- The state at the head of one iteration of the chunk loop, after
the (successful) status/progress update of src/main.py line 126 and
with the chunk's search query (its first 300 characters, line 128)
recorded. -/
def chunkStart (total i : Nat) (chunk : List Char)
    (st : St) : St :=
  ⟨(setStatusProgress st (blocStatus (i + 1) total)
      (i * 70 / total + 10)).ctr,
    { (setStatusProgress st (blocStatus (i + 1) total)
        (i * 70 / total + 10)).db with
      searchQueries := (setStatusProgress st (blocStatus (i + 1) total)
        (i * 70 / total + 10)).db.searchQueries ++ [chunk.take 300] }⟩

/-- The per-chunk loop of src/main.py lines 124–151: update status and
progress (`int((index/total)*70) + 10`, a fallible operation), issue
the search query made of the first 300 characters of the chunk
(`search_google` never raises), run the candidate loop, and append the
chunk's maximum score to `all_chunk_scores`. -/
def runChunks (env : Env) (total : Nat) :
    List (List Char) → Nat → St → List ℚ → List Detected → CRes
  | [], _, st, scores, det => .ok st scores det
  | chunk :: rest, i, st, scores, det =>
    let f := opFails env st
    if f.1 then .fail f.2
    else
      match runSources env chunk (env.search (chunk.take 300))
          (chunkStart total i chunk f.2) 0 det with
      | .fail st4 => .fail st4
      | .ok st4 maxS det1 =>
          runChunks env total rest (i + 1) st4 (scores ++ [maxS]) det1

/-- Outcome of a run of `process_analysis`: normal return, exception
caught and handled by the `except` block, or an exception escaping the
function (the error-path update itself raised). -/
inductive RunOutcome where
  | completed : RunOutcome
  | errorHandled : RunOutcome
  | escaped : RunOutcome
deriving DecidableEq

/-- Title of the success notification (src/main.py line 182). -/
def successNoteTitle : String := "Analyse terminée ! ✅"

/-- Title of the failure notification (src/main.py line 202). -/
def failNoteTitle : String := "Échec de l\u0027analyse ❌"

/-- The `except Exception` handler of src/main.py lines 187–207: set
the analyses row to status "erreur", progress 0, score 0 (a fallible
update — if it raises, the exception escapes `process_analysis`);
then, inside a nested `try` whose bare `except: pass` swallows
everything, select the run's `user_id` (fallible) and insert a failure
notification (fallible).  The notification insert is recorded as
attempted even when it raises. -/
def errorPath (env : Env) (st : St) : RunOutcome × St :=
  let f1 := opFails env st
  if f1.1 then (.escaped, f1.2)
  else
    let st1 : St := ⟨f1.2.ctr,
      { f1.2.db with record := { f1.2.db.record with
          status := "erreur"
          progress := 0
          score := 0 } }⟩
    let f2 := opFails env st1
    if f2.1 then (.errorHandled, f2.2)
    else
      let st2 : St := ⟨f2.2.ctr,
        { f2.2.db with noteAttempts := f2.2.db.noteAttempts ++
            [⟨env.userId, failNoteTitle⟩] }⟩
      let f3 := opFails env st2
      if f3.1 then (.errorHandled, f3.2)
      else (.errorHandled, ⟨f3.2.ctr,
        { f3.2.db with notes := f3.2.db.notes ++
            [⟨env.userId, failNoteTitle⟩] }⟩)

/-- Result of the `try` block of `process_analysis`: normal return, or
the state at the point where an uncaught exception was raised. -/
inductive MRes where
  | done : St → MRes
  | fail : St → MRes
deriving DecidableEq

/-- Stages 4–5 of `process_analysis` (src/main.py lines 155–185),
entered after the chunk loop with the per-chunk scores and the state
`st`: update status to "Génération du rapport..." at progress 90
(fallible), select `file_name`/`user_id` (fallible, line 158), run
`generate_styled_report` which writes the local file
`temp_{analysis_id}.pdf` (fallible, lines 163/274–275), open and
upload it to `reports/report_{analysis_id}.pdf` (fallible, lines
166–167), remove the local file (line 169 — only reached when the
upload did not raise), update the analyses row to "termine" with the
final score, progress 100 and the report path (fallible, lines
172–177), and insert the success notification (fallible, lines
180–185). -/
def finishRun (env : Env) (analysisId : String) (total : Nat)
    (scores : List ℚ) (st : St) : MRes :=
  let f3 := opFails env st
  if f3.1 then .fail f3.2
  else
    let st5 := setStatusProgress f3.2 "Génération du rapport..." 90
    let f4 := opFails env st5
    if f4.1 then .fail f4.2
    else
      let f5 := opFails env f4.2
      if f5.1 then .fail f5.2
      else
        let st6 : St := ⟨f5.2.ctr, { f5.2.db with
          localFiles := f5.2.db.localFiles ++
            ["temp_" ++ analysisId ++ ".pdf"] }⟩
        let f6 := opFails env st6
        if f6.1 then .fail f6.2
        else
          let st7 : St := ⟨f6.2.ctr, { f6.2.db with
            uploads := f6.2.db.uploads ++
              ["reports/report_" ++ analysisId ++ ".pdf"]
            localFiles := f6.2.db.localFiles.erase
              ("temp_" ++ analysisId ++ ".pdf") }⟩
          let f7 := opFails env st7
          if f7.1 then .fail f7.2
          else
            let st8 : St := ⟨f7.2.ctr, { f7.2.db with record :=
              { f7.2.db.record with
                status := "termine"
                score := final_global_score scores total
                progress := 100
                reportPath := some
                  ("reports/report_" ++ analysisId ++ ".pdf") } }⟩
            let st9 : St := ⟨st8.ctr, { st8.db with
              noteAttempts := st8.db.noteAttempts ++
                [⟨env.userId, successNoteTitle⟩] }⟩
            let f8 := opFails env st9
            if f8.1 then .fail f8.2
            else .done ⟨f8.2.ctr, { f8.2.db with
              notes := f8.2.db.notes ++
                [⟨env.userId, successNoteTitle⟩] }⟩

/-- The `try` block of `process_analysis` (src/main.py lines 107–185).
Every record-store call, the blob download, the PDF generation
(`generate_styled_report`, which writes `temp_{analysis_id}.pdf`
locally) and the blob upload are fallible operations, in program
order; `os.remove` of the just-written local file (guarded by
`os.path.exists`, line 169) is treated as an infallible local
operation. -/
def mainBody (env : Env) (analysisId : String) : MRes :=
  let st0 : St := ⟨0, ⟨env.initRecord, [], [], [], [], [], []⟩⟩
  -- update: status "Lecture du document...", progress 10 (line 109)
  let f0 := opFails env st0
  if f0.1 then .fail f0.2
  else
    let st1 := setStatusProgress f0.2 "Lecture du document..." 10
    -- storage download (line 110); extraction (line 111) never raises
    let f1 := opFails env st1
    if f1.1 then .fail f1.2
    else
      if pyBlank env.text then
        -- update: status "termine", score 0, progress 100 (line 114)
        let f2 := opFails env f1.2
        if f2.1 then .fail f2.2
        else .done ⟨f2.2.ctr, { f2.2.db with record :=
          { f2.2.db.record with
            status := "termine"
            score := 0
            progress := 100 } }⟩
      else
        match runChunks env (split_text env.text 500).length
            (split_text env.text 500) 0 f1.2 [] [] with
        | .fail stF => .fail stF
        | .ok st4 scores _ =>
            finishRun env analysisId (split_text env.text 500).length
              scores st4

/-- `process_analysis` (src/main.py lines 106–207): run the `try`
body; any uncaught exception is caught by the `except Exception`
handler. -/
def process_analysis (env : Env) (analysisId : String) : RunOutcome × St :=
  match mainBody env analysisId with
  | .done st => (.completed, st)
  | .fail st => errorPath env st

/-! Theorems about the orchestrator. -/

/-- C5: for a document whose extracted text is blank or
whitespace-only, the run terminates directly in the terminal
"termine" (the spec's `done` label) state with score 0 and progress
100, having consumed only the initial status update, the download and
the final update: no search query is issued, no chunk is analysed, no
match row is inserted, no local report file is written, no upload is
performed, and no notification is attempted. -/
theorem process_analysis_blank (env : Env) (analysisId : String)
    (hblank : pyBlank env.text = true)
    (h0 : env.fail 0 = false) (h1 : env.fail 1 = false)
    (h2 : env.fail 2 = false) :
    process_analysis env analysisId =
      (.completed, ⟨3, ⟨⟨"termine", 100, 0, env.initRecord.reportPath⟩,
        [], [], [], [], [], []⟩⟩) := by
  unfold process_analysis mainBody
  simp [opFails, setStatusProgress, h0, h1, h2, hblank]

/-- Closed instance of `process_analysis_blank` on a whitespace-only
document with a fault-free environment. -/
def envBlank : Env :=
  ⟨"   ".toList, fun _ => [], fun _ => [], fun _ _ => 0, "doc.pdf", "u1",
    ⟨"attente", 0, 0, none⟩, fun _ => false⟩

theorem process_analysis_blank_witness :
    pyBlank envBlank.text = true ∧
      process_analysis envBlank "A1" =
        (.completed, ⟨3, ⟨⟨"termine", 100, 0, none⟩,
          [], [], [], [], [], []⟩⟩) :=
  ⟨rfl, process_analysis_blank envBlank "A1" rfl rfl rfl rfl⟩

/-- C4: (a) every run either returns `.completed` or routes through
the `except Exception` handler `errorPath` — there is no other exit;
(b) whenever the handler's own analyses update (operation `st.ctr`)
and its user_id select (operation `st.ctr + 1`) succeed, the handler
finishes with the exception swallowed — even if the notification
insert itself fails, no hypothesis is made about it — leaving the
analyses row at status "erreur" (the spec's terminal `error` label)
with progress 0 and score 0, recording an attempted failure
notification, and adding no further match row, search query or upload:
the remainder of the run is aborted. -/
theorem process_analysis_error_semantics (env : Env) (analysisId : String)
    (st : St) (h1 : env.fail st.ctr = false)
    (h2 : env.fail (st.ctr + 1) = false) :
    ((process_analysis env analysisId).1 = .completed
      ∨ ∃ stf, mainBody env analysisId = .fail stf
          ∧ process_analysis env analysisId = errorPath env stf)
    ∧ ((errorPath env st).1 = .errorHandled
        ∧ (errorPath env st).2.db.record.status = "erreur"
        ∧ (errorPath env st).2.db.record.progress = 0
        ∧ (errorPath env st).2.db.record.score = 0
        ∧ (errorPath env st).2.db.noteAttempts
            = st.db.noteAttempts ++ [⟨env.userId, failNoteTitle⟩]
        ∧ (errorPath env st).2.db.results = st.db.results
        ∧ (errorPath env st).2.db.searchQueries = st.db.searchQueries
        ∧ (errorPath env st).2.db.uploads = st.db.uploads
        ∧ (errorPath env st).2.db.localFiles = st.db.localFiles) := by
  constructor
  · cases hm : mainBody env analysisId with
    | done st' => left; simp [process_analysis, hm]
    | fail st' => right; exact ⟨st', rfl, by simp [process_analysis, hm]⟩
  · unfold errorPath
    simp only [opFails, h1, h2]
    by_cases h3 : env.fail (st.ctr + 1 + 1) = true
    · simp [h3]
    · simp only [Bool.not_eq_true] at h3
      simp [h3]

/-- Closed instance of `process_analysis_error_semantics` on a
concrete mid-run state with a fault-free error handler. -/
def envErr : Env :=
  ⟨"x".toList, fun _ => [], fun _ => [], fun _ _ => 0, "f.pdf", "u7",
    ⟨"attente", 0, 0, none⟩, fun _ => false⟩

def stErr : St :=
  ⟨5, ⟨⟨"Analyse bloc 1/1...", 17, 0, none⟩, [], [], [], [], [], []⟩⟩

theorem process_analysis_error_semantics_witness :
    (errorPath envErr stErr).1 = .errorHandled
      ∧ (errorPath envErr stErr).2.db.record.status = "erreur"
      ∧ (errorPath envErr stErr).2.db.record.progress = 0
      ∧ (errorPath envErr stErr).2.db.noteAttempts
          = [⟨"u7", failNoteTitle⟩] :=
  ⟨(process_analysis_error_semantics envErr "A1" stErr rfl rfl).2.1,
   (process_analysis_error_semantics envErr "A1" stErr rfl rfl).2.2.1,
   (process_analysis_error_semantics envErr "A1" stErr rfl rfl).2.2.2.1,
   (process_analysis_error_semantics envErr "A1" stErr rfl rfl).2.2.2.2.2.1⟩

/-- The candidate loop touches neither the local file system nor the
blob store, whether it completes or aborts on a failed insert. -/
theorem runSources_frame (env : Env) (chunk : List Char) :
    ∀ (srcs : List WebSource) (st : St) (maxS : ℚ) (det : List Detected),
      ((runSources env chunk srcs st maxS det).stOf).db.localFiles
          = st.db.localFiles
        ∧ ((runSources env chunk srcs st maxS det).stOf).db.uploads
          = st.db.uploads := by
  intro srcs
  induction srcs with
  | nil => intro st maxS det; exact ⟨rfl, rfl⟩
  | cons src rest ih =>
      intro st maxS det
      rw [runSources]
      by_cases hw : env.scrape src.link = []
      · simp only [if_pos hw]
        exact ih st maxS det
      · simp only [if_neg hw]
        by_cases h15 : (15 : ℚ) < pyScore (env.sim chunk (env.scrape src.link))
        · simp only [if_pos h15]
          by_cases hf : env.fail st.ctr = true
          · simp [opFails, hf, SRes.stOf]
          · simp only [Bool.not_eq_true] at hf
            simp only [opFails, hf, Bool.false_eq_true, if_false]
            exact ih (insertRow env chunk src ⟨st.ctr + 1, st.db⟩) _ _
        · simp only [if_neg h15]
          exact ih st _ det

theorem runSources_frame_ok (env : Env) (chunk : List Char)
    (srcs : List WebSource) (st : St) (maxS : ℚ) (det : List Detected)
    (st' : St) (m : ℚ) (d : List Detected)
    (h : runSources env chunk srcs st maxS det = .ok st' m d) :
    st'.db.localFiles = st.db.localFiles
      ∧ st'.db.uploads = st.db.uploads := by
  have hf := runSources_frame env chunk srcs st maxS det
  rw [h] at hf
  simpa [SRes.stOf] using hf

theorem runSources_frame_fail (env : Env) (chunk : List Char)
    (srcs : List WebSource) (st : St) (maxS : ℚ) (det : List Detected)
    (st' : St)
    (h : runSources env chunk srcs st maxS det = .fail st') :
    st'.db.localFiles = st.db.localFiles
      ∧ st'.db.uploads = st.db.uploads := by
  have hf := runSources_frame env chunk srcs st maxS det
  rw [h] at hf
  simpa [SRes.stOf] using hf

/-- The chunk loop touches neither the local file system nor the blob
store. -/
theorem runChunks_frame (env : Env) (total : Nat) :
    ∀ (chunks : List (List Char)) (i : Nat) (st : St) (scores : List ℚ)
      (det : List Detected),
      ((runChunks env total chunks i st scores det).stOf).db.localFiles
          = st.db.localFiles
        ∧ ((runChunks env total chunks i st scores det).stOf).db.uploads
          = st.db.uploads := by
  intro chunks
  induction chunks with
  | nil => intro i st scores det; exact ⟨rfl, rfl⟩
  | cons chunk rest ih =>
      intro i st scores det
      rw [runChunks]
      by_cases hf : env.fail st.ctr = true
      · simp [opFails, hf, CRes.stOf]
      · simp only [Bool.not_eq_true] at hf
        simp only [opFails, hf, Bool.false_eq_true, if_false]
        cases hs : runSources env chunk (env.search (chunk.take 300))
            (chunkStart total i chunk ⟨st.ctr + 1, st.db⟩) 0 det with
        | fail st4 =>
            have hfr := runSources_frame_fail env chunk
              (env.search (chunk.take 300))
              (chunkStart total i chunk ⟨st.ctr + 1, st.db⟩) 0 det st4 hs
            simp only [CRes.stOf]
            simpa [chunkStart, setStatusProgress] using hfr
        | ok st4 maxS det1 =>
            have hfr := runSources_frame_ok env chunk
              (env.search (chunk.take 300))
              (chunkStart total i chunk ⟨st.ctr + 1, st.db⟩) 0 det
              st4 maxS det1 hs
            have hrec := ih (i + 1) st4 (scores ++ [maxS]) det1
            refine ⟨?_, ?_⟩
            · rw [hrec.1, hfr.1]
              simp [chunkStart, setStatusProgress]
            · rw [hrec.2, hfr.2]
              simp [chunkStart, setStatusProgress]

theorem runChunks_frame_ok (env : Env) (total : Nat)
    (chunks : List (List Char)) (i : Nat) (st : St) (scores : List ℚ)
    (det : List Detected) (st' : St) (sc : List ℚ) (d : List Detected)
    (h : runChunks env total chunks i st scores det = .ok st' sc d) :
    st'.db.localFiles = st.db.localFiles
      ∧ st'.db.uploads = st.db.uploads := by
  have hf := runChunks_frame env total chunks i st scores det
  rw [h] at hf
  simpa [CRes.stOf] using hf

/-- The `except` handler never reports a normal completion. -/
theorem errorPath_not_completed (env : Env) (st : St) :
    (errorPath env st).1 ≠ RunOutcome.completed := by
  unfold errorPath
  by_cases h1 : env.fail st.ctr = true
  · simp [opFails, h1]
  · simp only [Bool.not_eq_true] at h1
    by_cases h2 : env.fail (st.ctr + 1) = true
    · simp [opFails, h1, h2]
    · simp only [Bool.not_eq_true] at h2
      by_cases h3 : env.fail (st.ctr + 1 + 1) = true
      · simp [opFails, h1, h2, h3]
      · simp only [Bool.not_eq_true] at h3
        simp [opFails, h1, h2, h3]

/-- When the report/finalisation phase returns normally, its final
local-file set is the input's with the transient report file appended
(when `generate_styled_report` wrote it) and then erased (after the
successful upload). -/
theorem finishRun_done_localFiles (env : Env) (analysisId : String)
    (total : Nat) (scores : List ℚ) (st : St) (st' : St)
    (h : finishRun env analysisId total scores st = .done st') :
    st'.db.localFiles =
      (st.db.localFiles ++ ["temp_" ++ analysisId ++ ".pdf"]).erase
        ("temp_" ++ analysisId ++ ".pdf") := by
  unfold finishRun at h
  simp only [opFails] at h
  split at h
  · exact MRes.noConfusion h
  · split at h
    · exact MRes.noConfusion h
    · split at h
      · exact MRes.noConfusion h
      · split at h
        · exact MRes.noConfusion h
        · split at h
          · exact MRes.noConfusion h
          · split at h
            · exact MRes.noConfusion h
            · cases h
              simp [setStatusProgress, opFails]

/-- A normal return of the `try` block leaves no local file. -/
theorem mainBody_done_no_local (env : Env) (analysisId : String) (st : St)
    (h : mainBody env analysisId = .done st) : st.db.localFiles = [] := by
  unfold mainBody at h
  simp only [opFails] at h
  split at h
  · exact MRes.noConfusion h
  · split at h
    · exact MRes.noConfusion h
    · split at h
      · split at h
        · exact MRes.noConfusion h
        · cases h
          simp [setStatusProgress, opFails]
      · split at h
        · exact MRes.noConfusion h
        · rename_i st4 scores det heq
          have hfr := runChunks_frame_ok env _ _ _ _ _ _ _ _ _ heq
          have hfin := finishRun_done_localFiles env analysisId _ scores
            st4 st h
          rw [hfin, hfr.1]
          simp [setStatusProgress, opFails]

/-- C9 amended: a run that returns normally never leaves the transient
report file behind — on the blank path no file is ever written, and on
the success path the file written by `generate_styled_report` is
removed right after the successful upload.  (When the upload itself
raises, the `os.remove` on line 169 is skipped — see the
counterexample — so the claim's "no local file on the failure path"
does not hold of the code.) -/
theorem process_analysis_completed_no_local (env : Env)
    (analysisId : String)
    (h : (process_analysis env analysisId).1 = .completed) :
    (process_analysis env analysisId).2.db.localFiles = [] := by
  cases hm : mainBody env analysisId with
  | done st =>
      have hl := mainBody_done_no_local env analysisId st hm
      simp [process_analysis, hm, hl]
  | fail st =>
      exfalso
      have hne := errorPath_not_completed env st
      simp only [process_analysis, hm] at h
      exact hne h

/-- Evaluation helper: a text that is a single non-empty whitespace-free
word forms exactly one chunk, itself. -/
theorem split_text_one_word (w : List Char) (hne : w ≠ [])
    (hnw : ∀ c ∈ w, c.isWhitespace = false) :
    split_text w 500 = [w] := by
  unfold split_text
  rw [pyWordsL_single w hne hnw]
  rw [show (500 : Nat) = 499 + 1 from rfl, groupWords]
  simp [groupWords, joinWords]

/-- A fault-free environment for a one-word document with no search
results. -/
def envRun : Env :=
  ⟨['h', 'e', 'l', 'l', 'o'], fun _ => [], fun _ => [], fun _ _ => 0,
    "doc.pdf", "u1", ⟨"attente", 0, 0, none⟩, fun _ => false⟩

/-- Closed instance of `process_analysis_completed_no_local` on a
fault-free full run (through chunking, report generation, upload and
finalisation). -/
theorem process_analysis_completed_no_local_witness :
    (process_analysis envRun "A2").1 = .completed ∧
      (process_analysis envRun "A2").2.db.localFiles = [] := by
  have hblank : pyBlank ['h', 'e', 'l', 'l', 'o'] = false := by decide
  have hsplit : split_text ['h', 'e', 'l', 'l', 'o'] 500
      = [['h', 'e', 'l', 'l', 'o']] :=
    split_text_one_word _ (by decide) (by decide)
  have hc : (process_analysis envRun "A2").1 = .completed := by
    simp only [process_analysis, mainBody, finishRun, runChunks,
      runSources, opFails, setStatusProgress, chunkStart, hblank, hsplit,
      envRun]
    simp
  exact ⟨hc, process_analysis_completed_no_local envRun "A2" hc⟩

/-- The environment of `envRun`, except that the blob upload — the 7th
fallible external operation of this run (index 6) — raises. -/
def envC9 : Env :=
  ⟨['h', 'e', 'l', 'l', 'o'], fun _ => [], fun _ => [], fun _ _ => 0,
    "doc.pdf", "u1", ⟨"attente", 0, 0, none⟩, fun n => n == 6⟩

/-- C9 counterexample: when the blob upload raises, control jumps from
line 167 of src/main.py straight to the `except` handler, so the
`os.remove` on line 169 never executes: the transient report file
written by `generate_styled_report` remains on disk after the run —
refuting the claim that no local report file remains on the failure
path of the upload. -/
theorem process_analysis_upload_failure_leaves_file :
    (process_analysis envC9 "A3").2.db.localFiles
        = ["temp_" ++ "A3" ++ ".pdf"]
      ∧ (["temp_" ++ "A3" ++ ".pdf"] : List String) ≠ [] := by
  have hblank : pyBlank ['h', 'e', 'l', 'l', 'o'] = false := by decide
  have hsplit : split_text ['h', 'e', 'l', 'l', 'o'] 500
      = [['h', 'e', 'l', 'l', 'o']] :=
    split_text_one_word _ (by decide) (by decide)
  constructor
  · simp only [process_analysis, mainBody, finishRun, runChunks,
      runSources, errorPath, opFails, setStatusProgress, chunkStart,
      hblank, hsplit, envC9]
    simp
  · simp

/-- Helper: `pyRound2` of a rational expressible in two decimals. -/
theorem pyRound2_of_int_mul (q : ℚ) (k : ℤ) (h : q * 100 = (k : ℚ)) :
    pyRound2 q = (k : ℚ) / 100 := by
  simp only [pyRound2]
  rw [h, roundHalfEven_intCast]

/-- The rows the candidate loop of one chunk inserts into
`analysis_results`: the candidates with non-empty scraped text whose
score strictly exceeds 15, in order, with the title defaulted to
"Source Web". -/
def qualifyingRows (env : Env) (chunk : List Char)
    (srcs : List WebSource) : List ResultRow :=
  srcs.filterMap fun src =>
    if env.scrape src.link = [] then none
    else if 15 < pyScore (env.sim chunk (env.scrape src.link)) then
      some ⟨src.link, src.title.getD "Source Web",
        pyScore (env.sim chunk (env.scrape src.link))⟩
    else none

/-- The `{url, score}` pairs of the qualifying candidates of one
chunk, in order. -/
def qualifyingDet (env : Env) (chunk : List Char)
    (srcs : List WebSource) : List Detected :=
  srcs.filterMap fun src =>
    if env.scrape src.link = [] then none
    else if 15 < pyScore (env.sim chunk (env.scrape src.link)) then
      some ⟨src.link, pyScore (env.sim chunk (env.scrape src.link))⟩
    else none

/-- In a fault-free environment the candidate loop completes, appends
exactly the qualifying rows to `analysis_results`, and dedup-folds the
qualifying `{url, score}` pairs into `detected_sources`. -/
theorem runSources_spec (env : Env) (chunk : List Char)
    (hok : ∀ n, env.fail n = false) :
    ∀ (srcs : List WebSource) (st : St) (maxS : ℚ) (det : List Detected),
      ∃ st' maxS',
        runSources env chunk srcs st maxS det
          = .ok st' maxS'
              (List.foldl dedupStep det (qualifyingDet env chunk srcs))
        ∧ st'.db.results
            = st.db.results ++ qualifyingRows env chunk srcs := by
  intro srcs
  induction srcs with
  | nil =>
      intro st maxS det
      exact ⟨st, maxS, by simp [runSources, qualifyingDet],
        by simp [qualifyingRows]⟩
  | cons src rest ih =>
      intro st maxS det
      rw [runSources]
      by_cases hw : env.scrape src.link = []
      · simp only [if_pos hw]
        rcases ih st maxS det with ⟨st', maxS', heq, hres⟩
        refine ⟨st', maxS', ?_, ?_⟩
        · rw [heq]
          simp [qualifyingDet, List.filterMap_cons, hw]
        · rw [hres]
          simp [qualifyingRows, List.filterMap_cons, hw]
      · simp only [if_neg hw]
        by_cases h15 : (15 : ℚ) < pyScore (env.sim chunk (env.scrape src.link))
        · simp only [if_pos h15]
          have hf := hok st.ctr
          simp only [opFails, hf, Bool.false_eq_true, if_false]
          rcases ih (insertRow env chunk src ⟨st.ctr + 1, st.db⟩)
              (if maxS < pyScore (env.sim chunk (env.scrape src.link))
                then pyScore (env.sim chunk (env.scrape src.link)) else maxS)
              (dedupStep det ⟨src.link,
                pyScore (env.sim chunk (env.scrape src.link))⟩)
            with ⟨st', maxS', heq, hres⟩
          refine ⟨st', maxS', ?_, ?_⟩
          · rw [heq]
            simp [qualifyingDet, List.filterMap_cons, hw, h15]
          · rw [hres]
            simp [qualifyingRows, List.filterMap_cons, hw, h15, insertRow]
        · simp only [if_neg h15]
          rcases ih st
              (if maxS < pyScore (env.sim chunk (env.scrape src.link))
                then pyScore (env.sim chunk (env.scrape src.link)) else maxS)
              det with ⟨st', maxS', heq, hres⟩
          refine ⟨st', maxS', ?_, ?_⟩
          · rw [heq]
            simp [qualifyingDet, List.filterMap_cons, hw, h15]
          · rw [hres]
            simp [qualifyingRows, List.filterMap_cons, hw, h15]

/-- C2: under a fault-free record store, the candidate loop appends to
`analysis_results` exactly the rows of candidates whose score strictly
exceeds 15 (`qualifyingRows`): a scored candidate (non-empty scraped
text) is persisted iff `15 < score` — in particular a score of exactly
15 is not persisted and a score of 15.01 is (see the witness). -/
theorem analysis_results_insert_iff (env : Env) (chunk : List Char)
    (hok : ∀ n, env.fail n = false) (srcs : List WebSource) (st : St)
    (maxS : ℚ) (det : List Detected) :
    (∃ st' maxS',
      runSources env chunk srcs st maxS det
        = .ok st' maxS'
            (List.foldl dedupStep det (qualifyingDet env chunk srcs))
      ∧ st'.db.results = st.db.results ++ qualifyingRows env chunk srcs)
    ∧ (∀ src ∈ srcs, env.scrape src.link ≠ [] →
        ((⟨src.link, src.title.getD "Source Web",
            pyScore (env.sim chunk (env.scrape src.link))⟩ : ResultRow)
            ∈ qualifyingRows env chunk srcs
          ↔ 15 < pyScore (env.sim chunk (env.scrape src.link)))) := by
  refine ⟨runSources_spec env chunk hok srcs st maxS det, ?_⟩
  intro src hsrc hw
  constructor
  · intro hmem
    rcases List.mem_filterMap.mp hmem with ⟨a, _, hfa⟩
    by_cases hwa : env.scrape a.link = []
    · rw [if_pos hwa] at hfa
      exact Option.noConfusion hfa
    · by_cases h15 : (15 : ℚ) < pyScore (env.sim chunk (env.scrape a.link))
      · rw [if_neg hwa, if_pos h15] at hfa
        have hs := congrArg ResultRow.score (Option.some.inj hfa)
        simp only [] at hs
        exact hs ▸ h15
      · rw [if_neg hwa, if_neg h15] at hfa
        exact Option.noConfusion hfa
  · intro h15
    exact List.mem_filterMap.mpr ⟨src, hsrc, by rw [if_neg hw, if_pos h15]⟩

def stInit : St := ⟨0, ⟨⟨"attente", 0, 0, none⟩, [], [], [], [], [], []⟩⟩

/-- Environment whose single candidate scores exactly 15
(similarity 0.15). -/
def envB1 : Env :=
  ⟨[], fun _ => [], fun _ => ['x'], fun _ _ => 3/20, "f.pdf", "u1",
    ⟨"attente", 0, 0, none⟩, fun _ => false⟩

/-- Environment whose single candidate scores 15.01
(similarity 0.1501). -/
def envB2 : Env :=
  ⟨[], fun _ => [], fun _ => ['x'], fun _ _ => 1501/10000, "f.pdf", "u1",
    ⟨"attente", 0, 0, none⟩, fun _ => false⟩

/-- Closed instance of `analysis_results_insert_iff` at the claim's
boundary: a candidate scoring exactly 15 yields no row, one scoring
15.01 yields its row. -/
theorem analysis_results_insert_iff_witness :
    (∀ n, envB1.fail n = false)
    ∧ qualifyingRows envB1 [] [⟨"u", none⟩] = []
    ∧ qualifyingRows envB2 [] [⟨"u", none⟩]
        = [⟨"u", "Source Web", 1501/100⟩]
    ∧ (∃ st' maxS',
        runSources envB2 [] [⟨"u", none⟩] stInit 0 []
          = .ok st' maxS'
              (List.foldl dedupStep []
                (qualifyingDet envB2 [] [⟨"u", none⟩]))
        ∧ st'.db.results = stInit.db.results
            ++ qualifyingRows envB2 [] [⟨"u", none⟩]) := by
  have hs1 : pyScore ((3 : ℚ)/20) = 15 := by
    unfold pyScore
    rw [show ((3 : ℚ)/20 * 100) = 15 by norm_num]
    rw [pyRound2_of_int_mul 15 1500 (by norm_num)]
    norm_num
  have hs2 : pyScore ((1501 : ℚ)/10000) = 1501/100 := by
    unfold pyScore
    rw [show ((1501 : ℚ)/10000 * 100) = 1501/100 by norm_num]
    rw [pyRound2_of_int_mul (1501/100) 1501 (by norm_num)]
    norm_num
  refine ⟨fun _ => rfl, ?_, ?_, ?_⟩
  · simp [qualifyingRows, envB1, hs1]
  · norm_num [qualifyingRows, envB2, hs2, List.filterMap_cons]
  · obtain ⟨st', m, hA, hB⟩ :=
      (analysis_results_insert_iff envB2 [] (fun _ => rfl)
        [⟨"u", none⟩] stInit 0 []).1
    exact ⟨st', m, hA, hB⟩

/-! Properties of the dedup fold of src/main.py lines 148–149. -/

theorem mem_dedup_foldl_of_mem_acc (q : List Detected) :
    ∀ acc d, d ∈ acc → d ∈ List.foldl dedupStep acc q := by
  induction q with
  | nil => intro acc d h; simpa using h
  | cons e q ih =>
      intro acc d h
      rw [List.foldl_cons]
      apply ih
      unfold dedupStep
      by_cases ha : acc.any (fun a => a.url == e.url) = true
      · rw [if_pos ha]; exact h
      · rw [if_neg ha]; exact List.mem_append_left _ h

theorem dedup_foldl_first_seen (q : List Detected) :
    ∀ acc d, d ∈ List.foldl dedupStep acc q →
      d ∈ acc ∨ ((∀ a ∈ acc, a.url ≠ d.url)
        ∧ q.find? (fun e => e.url == d.url) = some d) := by
  induction q with
  | nil => intro acc d h; left; simpa using h
  | cons e q ih =>
      intro acc d h
      rw [List.foldl_cons] at h
      have hacc : ∀ a ∈ acc, a ∈ dedupStep acc e := by
        intro a ha
        unfold dedupStep
        by_cases hae : acc.any (fun x => x.url == e.url) = true
        · rw [if_pos hae]; exact ha
        · rw [if_neg hae]; exact List.mem_append_left _ ha
      rcases ih _ d h with hin | ⟨hnot, hfind⟩
      · unfold dedupStep at hin
        by_cases ha : acc.any (fun a => a.url == e.url) = true
        · rw [if_pos ha] at hin; left; exact hin
        · rw [if_neg ha] at hin
          rcases List.mem_append.mp hin with h1 | h1
          · left; exact h1
          · have hde : d = e := by simpa using h1
            subst hde
            right
            constructor
            · intro a hain hau
              have : acc.any (fun x => x.url == d.url) = true :=
                List.any_eq_true.mpr ⟨a, hain, by simp [hau]⟩
              exact ha this
            · rw [List.find?_cons_of_pos _ (by simp)]
      · right
        have he : e.url ≠ d.url := by
          by_cases hae : acc.any (fun a => a.url == e.url) = true
          · rcases List.any_eq_true.mp hae with ⟨a, hain, haeq⟩
            have hau : a.url = e.url := by simpa using haeq
            rw [← hau]
            exact hnot a (hacc a hain)
          · apply hnot e
            unfold dedupStep
            rw [if_neg hae]
            exact List.mem_append_right _ (by simp)
        refine ⟨fun a ha => hnot a (hacc a ha), ?_⟩
        rw [List.find?_cons_of_neg _ (by simpa using he)]
        exact hfind

theorem dedup_foldl_covers (q : List Detected) :
    ∀ acc, ∀ e ∈ q, ∃ d ∈ List.foldl dedupStep acc q, d.url = e.url := by
  induction q with
  | nil => intro acc e h; simp at h
  | cons e0 q ih =>
      intro acc e h
      rw [List.foldl_cons]
      rcases List.mem_cons.mp h with he | he
      · subst he
        by_cases ha : acc.any (fun a => a.url == e.url) = true
        · rcases List.any_eq_true.mp ha with ⟨a, hain, haeq⟩
          refine ⟨a, ?_, by simpa using haeq⟩
          apply mem_dedup_foldl_of_mem_acc
          unfold dedupStep
          rw [if_pos ha]
          exact hain
        · refine ⟨e, ?_, rfl⟩
          apply mem_dedup_foldl_of_mem_acc
          unfold dedupStep
          rw [if_neg ha]
          exact List.mem_append_right _ (by simp)
      · exact ih _ e he

theorem dedup_foldl_nodup (q : List Detected) :
    ∀ acc, ((acc.map Detected.url).Nodup) →
      (((List.foldl dedupStep acc q).map Detected.url).Nodup) := by
  induction q with
  | nil => intro acc h; simpa using h
  | cons e q ih =>
      intro acc h
      rw [List.foldl_cons]
      apply ih
      unfold dedupStep
      by_cases ha : acc.any (fun a => a.url == e.url) = true
      · rw [if_pos ha]; exact h
      · rw [if_neg ha]
        have hne : e.url ∉ acc.map Detected.url := by
          intro hmem
          rcases List.mem_map.mp hmem with ⟨a, hain, hau⟩
          exact ha (List.any_eq_true.mpr ⟨a, hain, by simp [hau]⟩)
        rw [List.map_append]
        simp [List.nodup_append, h, hne]

/-- The qualifying `{url, score}` pairs of a whole run, chunk by chunk
in order (each chunk's candidates are the search results for its first
300 characters). -/
def runQualifying (env : Env) (chunks : List (List Char)) : List Detected :=
  (chunks.map (fun c => qualifyingDet env c (env.search (c.take 300)))).flatten

/-- In a fault-free environment the chunk loop completes and its
`detected_sources` output is the dedup fold of the qualifying pairs of
the whole run. -/
theorem runChunks_spec (env : Env) (total : Nat)
    (hok : ∀ n, env.fail n = false) :
    ∀ (chunks : List (List Char)) (i : Nat) (st : St) (scores : List ℚ)
      (det : List Detected),
      ∃ st' scores',
        runChunks env total chunks i st scores det
          = .ok st' scores'
              (List.foldl dedupStep det (runQualifying env chunks)) := by
  intro chunks
  induction chunks with
  | nil =>
      intro i st scores det
      exact ⟨st, scores, by simp [runChunks, runQualifying]⟩
  | cons chunk rest ih =>
      intro i st scores det
      rw [runChunks]
      have hf := hok st.ctr
      simp only [opFails, hf, Bool.false_eq_true, if_false]
      rcases runSources_spec env chunk hok (env.search (chunk.take 300))
          (chunkStart total i chunk ⟨st.ctr + 1, st.db⟩) 0 det
        with ⟨st4, maxS', heq, _⟩
      rw [heq]
      rcases ih (i + 1) st4 (scores ++ [maxS'])
          (List.foldl dedupStep det
            (qualifyingDet env chunk (env.search (chunk.take 300))))
        with ⟨st', scores', heq2⟩
      refine ⟨st', scores', ?_⟩
      show runChunks env total rest (i + 1) st4 (scores ++ [maxS'])
          (List.foldl dedupStep det
            (qualifyingDet env chunk (env.search (chunk.take 300))))
        = _
      rw [heq2]
      simp [runQualifying, List.foldl_append]

/-- C7 amended: within one fault-free run, the reported source list
(`detected_sources`) contains exactly one entry per url among the
qualifying candidates: its url set is duplicate-free, each entry
equals the FIRST qualifying occurrence with its url (so the first-seen
score is retained and later occurrences change nothing), and every
qualifying url is represented.  Reported entries carry only url and
score; titles are never part of the reported list (see the
counterexample). -/
theorem detected_sources_dedup (env : Env) (total : Nat)
    (hok : ∀ n, env.fail n = false) (chunks : List (List Char)) (i : Nat)
    (st : St) (scores : List ℚ) :
    ∃ st' scores',
      runChunks env total chunks i st scores []
        = .ok st' scores'
            (List.foldl dedupStep [] (runQualifying env chunks))
      ∧ (((List.foldl dedupStep [] (runQualifying env chunks)).map
            Detected.url).Nodup)
      ∧ (∀ d ∈ List.foldl dedupStep [] (runQualifying env chunks),
          (runQualifying env chunks).find? (fun e => e.url == d.url)
            = some d)
      ∧ (∀ e ∈ runQualifying env chunks,
          ∃ d ∈ List.foldl dedupStep [] (runQualifying env chunks),
            d.url = e.url) := by
  rcases runChunks_spec env total hok chunks i st scores []
    with ⟨st', sc', heq⟩
  refine ⟨st', sc', heq, dedup_foldl_nodup _ _ (by simp), ?_, ?_⟩
  · intro d hd
    rcases dedup_foldl_first_seen _ _ d hd with h | ⟨_, hfind⟩
    · simp at h
    · exact hfind
  · intro e he
    exact dedup_foldl_covers _ _ e he

def SRes.detOf : SRes → Option (List Detected)
  | .ok _ _ det => some det
  | .fail _ => none

/-- A fault-free environment whose every candidate scrapes to "x" and
scores 20 (similarity 0.2). -/
def envT : Env :=
  ⟨[], fun _ => [], fun _ => ['x'], fun _ _ => 1/5, "f.pdf", "u1",
    ⟨"attente", 0, 0, none⟩, fun _ => false⟩

/-- C7 counterexample: the claim says the reported source list retains
the first-seen occurrence's title.  The `detected_sources` entries
built on src/main.py line 149 contain only `url` and `score`: two runs
whose duplicate-url candidates (both above threshold) differ only in
the first occurrence's title ("T1" vs "T2") produce the SAME reported
list `[{url := "u", score := 20}]`, so no title — in particular not
the first-seen one — is retained in the reported list. -/
theorem detected_sources_no_title :
    (runSources envT [] [⟨"u", some "T1"⟩, ⟨"u", some "X"⟩]
        stInit 0 []).detOf
      = (runSources envT [] [⟨"u", some "T2"⟩, ⟨"u", some "X"⟩]
          stInit 0 []).detOf
    ∧ ("T1" : String) ≠ "T2"
    ∧ (runSources envT [] [⟨"u", some "T1"⟩, ⟨"u", some "X"⟩]
        stInit 0 []).detOf = some [⟨"u", 20⟩] := by
  have hs : pyScore ((5 : ℚ)⁻¹) = 20 := by
    unfold pyScore
    rw [show ((5 : ℚ)⁻¹ * 100) = 20 by norm_num]
    rw [pyRound2_of_int_mul 20 2000 (by norm_num)]
    norm_num
  have h15 : (15 : ℚ) < 20 := by norm_num
  refine ⟨?_, by decide, ?_⟩
  · simp [runSources, envT, hs, h15, opFails, insertRow, dedupStep,
      stInit, SRes.detOf]
  · simp [runSources, envT, hs, h15, opFails, insertRow, dedupStep,
      stInit, SRes.detOf]

/-- A fault-free environment where every chunk's search returns the
same single candidate url (scoring 20). -/
def envT2 : Env :=
  ⟨[], fun _ => [⟨"u", some "T"⟩], fun _ => ['x'], fun _ _ => 1/5,
    "f.pdf", "u1", ⟨"attente", 0, 0, none⟩, fun _ => false⟩

/-- Closed instance of `detected_sources_dedup`: a two-chunk run whose
chunks both match the same url. -/
theorem detected_sources_dedup_witness :
    (∀ n, envT2.fail n = false)
    ∧ (∃ st' scores',
        runChunks envT2 2 [['a'], ['b']] 0 stInit [] []
          = .ok st' scores'
              (List.foldl dedupStep []
                (runQualifying envT2 [['a'], ['b']]))
        ∧ (((List.foldl dedupStep []
              (runQualifying envT2 [['a'], ['b']])).map
                Detected.url).Nodup)
        ∧ (∀ d ∈ List.foldl dedupStep []
              (runQualifying envT2 [['a'], ['b']]),
            (runQualifying envT2 [['a'], ['b']]).find?
              (fun e => e.url == d.url) = some d)
        ∧ (∀ e ∈ runQualifying envT2 [['a'], ['b']],
            ∃ d ∈ List.foldl dedupStep []
                (runQualifying envT2 [['a'], ['b']]),
              d.url = e.url)) :=
  ⟨fun _ => rfl,
    detected_sources_dedup envT2 2 (fun _ => rfl) [['a'], ['b']] 0
      stInit []⟩
